import Mathlib

/-!
# Verification of the med-scan-reminder prescription-reminder app

This file gives a shallow embedding, in Lean 4, of the core logic of the
med-scan-reminder repository (a browser prescription-reminder app):

* the prescription-text parser of `src/components/ReminderForm.tsx`
  (`extractMedicineDetails`, `getFrequencyHours` and the inlined duration /
  frequency heuristics), including a small, complete backtracking matcher
  for the JavaScript regular expressions the parser uses;
* the polling scheduler of `src/lib/reminderScheduler.ts`
  (`checkRemindersNow`, `scheduleNextCheck`);
* the local-storage CRUD accessor of `src/lib/api.ts`
  (`updateReminder`, `deleteReminder`).

Modelling conventions:

* JavaScript strings are Lean `String` / `List Char`; only ASCII behaviour of
  `\s`, `toLowerCase` and friends is modelled (all inputs of interest are
  ASCII).
* Timestamps (`Date`) are naturals counting milliseconds; adding `h` hours via
  `Date.setHours(getHours() + h)` is modelled as adding `h * 3600000` ms
  (daylight-saving shifts of local time are out of scope).
* A run of the scheduler's due-check uses one fixed time `now` (the real code
  takes fresh `new Date()` values microseconds apart within one pass).
* Rejected promises (`updateReminder` failures) are modelled by an explicit
  predicate saying which reminder ids fail to persist, and by `Except` results.
* All functions are total, executable `def`s, so concrete runs are decidable.
-/

/-! ## Characters: the ASCII behaviour of the JS character classes -/

/-- The regex class `\d`, i.e. `[0-9]` (codes 48–57). -/
def isDig (c : Char) : Bool := 48 ≤ c.toNat && c.toNat ≤ 57

/-- The regex class `\s`, restricted to its ASCII members: space, tab,
line feed, carriage return, vertical tab, form feed. -/
def jsWs (c : Char) : Bool :=
  c.toNat == 32 || c.toNat == 9 || c.toNat == 10 || c.toNat == 13 ||
    c.toNat == 11 || c.toNat == 12

/-- The regex class `[\r\n]` (codes 13 and 10). -/
def isCRLF (c : Char) : Bool := c.toNat == 13 || c.toNat == 10

/-- ASCII `String.prototype.toLowerCase` on one character: `A`–`Z` map to
`a`–`z`, everything else is fixed. -/
def charLower (c : Char) : Char :=
  match c with
  | 'A' => 'a' | 'B' => 'b' | 'C' => 'c' | 'D' => 'd' | 'E' => 'e'
  | 'F' => 'f' | 'G' => 'g' | 'H' => 'h' | 'I' => 'i' | 'J' => 'j'
  | 'K' => 'k' | 'L' => 'l' | 'M' => 'm' | 'N' => 'n' | 'O' => 'o'
  | 'P' => 'p' | 'Q' => 'q' | 'R' => 'r' | 'S' => 's' | 'T' => 't'
  | 'U' => 'u' | 'V' => 'v' | 'W' => 'w' | 'X' => 'x' | 'Y' => 'y'
  | 'Z' => 'z'
  | c => c

/-- Character comparison, optionally case-insensitive (the regex `i` flag). -/
def charCI (ci : Bool) (p c : Char) : Bool :=
  if ci then charLower p == charLower c else p == c

theorem char_eq_of_toNat_eq {c d : Char} (h : c.toNat = d.toNat) : c = d := by
  apply Char.ext
  apply UInt32.ext
  simpa [Char.toNat] using h

theorem toNat_eq_of_char_eq {c d : Char} (h : c = d) : c.toNat = d.toNat := by
  rw [h]

theorem isDig_toNat {c : Char} (h : isDig c = true) :
    48 ≤ c.toNat ∧ c.toNat ≤ 57 := by
  simp only [isDig, Bool.and_eq_true, decide_eq_true_eq] at h
  exact h

/-- Uppercase letters have codes 65–90; on anything else `charLower` is the
identity. -/
theorem charLower_id_of_not_upper {c : Char}
    (h : c.toNat < 65 ∨ 90 < c.toNat) : charLower c = c := by
  unfold charLower
  split
  all_goals first
    | rfl
    | exact absurd h (by decide)

theorem charLower_digit {c : Char} (h : isDig c = true) : charLower c = c := by
  have := isDig_toNat h
  exact charLower_id_of_not_upper (Or.inl (by omega))

theorem charLower_ws {c : Char} (h : jsWs c = true) : charLower c = c := by
  simp only [jsWs, Bool.or_eq_true, beq_iff_eq] at h
  apply charLower_id_of_not_upper
  omega

/-- If the target character is not a lowercase letter (codes 97–122), then
`charLower` reaching it forces equality. -/
theorem eq_of_charLower_eq {d e : Char}
    (he : e.toNat < 97 ∨ 122 < e.toNat) (h : charLower d = e) : d = e := by
  unfold charLower at h
  revert h
  split
  all_goals intro h
  all_goals first
    | exact h
    | · subst h
        exact absurd he (by decide)

/-- A digit never compares (case-insensitively) equal to a character whose
lowercase form has code at least 58 (letters, in particular). -/
theorem charCI_notDigit {p c : Char} (hp : 58 ≤ (charLower p).toNat)
    (hc : isDig c = true) : charCI true p c = false := by
  have hd := isDig_toNat hc
  show (if true = true then charLower p == charLower c else p == c) = false
  rw [if_pos rfl, charLower_digit hc]
  apply beq_eq_false_iff_ne.mpr
  intro h
  have := toNat_eq_of_char_eq h
  omega

theorem ws_not_dig {c : Char} (h : jsWs c = true) : isDig c = false := by
  simp only [jsWs, Bool.or_eq_true, beq_iff_eq] at h
  simp only [isDig, Bool.and_eq_false_iff, decide_eq_false_iff_not, not_le]
  omega

theorem dig_not_ws {c : Char} (h : isDig c = true) : jsWs c = false := by
  have := isDig_toNat h
  simp only [jsWs, Bool.or_eq_false_iff, beq_eq_false_iff_ne, ne_eq]
  omega

/-! ## JS string helpers -/

/-- `String.prototype.trim` on a character list (ASCII whitespace). -/
def trimChars (cs : List Char) : List Char :=
  ((cs.dropWhile jsWs).reverse.dropWhile jsWs).reverse

/-- `String.prototype.trim`. -/
def jsTrim (s : String) : String := String.mk (trimChars s.toList)

/-- `String.prototype.toLowerCase` (ASCII). -/
def jsLower (s : String) : String := String.mk (s.toList.map charLower)

/-- Boolean "is this list a prefix of that one". -/
def beginsWith : List Char → List Char → Bool
  | [], _ => true
  | _ :: _, [] => false
  | p :: ps, c :: cs => p == c && beginsWith ps cs

/-- `String.prototype.includes` on character lists. -/
def containsList (hay pat : List Char) : Bool :=
  if beginsWith pat hay then true
  else
    match hay with
    | [] => false
    | _ :: t => containsList t pat

/-- `String.prototype.includes`. -/
def containsSub (s pat : String) : Bool := containsList s.toList pat.toList

/-- `String.prototype.split` with a single-character separator: JS
`"".split(sep)` is `[""]`, and separators at the ends produce empty pieces. -/
def splitChars (p : Char → Bool) : List Char → List (List Char)
  | [] => [[]]
  | c :: cs =>
    let r := splitChars p cs
    if p c then [] :: r
    else
      match r with
      | h :: t => (c :: h) :: t
      | [] => [[c]]

/-- `parseInt` on an all-digit string (the only way the embedded code calls
it: on a capture of `(\d+)`). -/
def jsParseInt (cs : List Char) : Nat :=
  cs.foldl (fun a c => a * 10 + (c.toNat - 48)) 0

/-! ## A small complete matcher for the JS regexes used by the parser

Each regular expression of the source is transcribed, item by item, into a
list of `RItem`s (or several such lists: a regex with an optional group
`(?:x)?` becomes the two alternatives "with x" and "without x", tried in that
order, which is the backtracking order of the JS engine).  The matcher
implements leftmost search, ordered alternation, greedy/lazy repetition with
full backtracking, so on the transcribed patterns it computes exactly what
`String.prototype.match` / `RegExp.prototype.exec` compute. -/

inductive RItem where
  /-- a literal string; the `Bool` is the `i` flag -/
  | lit : String → Bool → RItem
  /-- ordered alternation of literal strings; the `Bool` is the `i` flag -/
  | alts : List String → Bool → RItem
  /-- exactly one character of a class -/
  | chr : (Char → Bool) → RItem
  /-- repetition of a class: `rep cls atLeastOne lazy captureSlot` models
  `cls*` / `cls+` (greedy) and `cls+?` (lazy); a `some k` slot records the
  consumed characters as capture group `k` -/
  | rep : (Char → Bool) → Bool → Bool → Option Nat → RItem
  /-- the anchor `^` (no `m` flag: start of the whole string) -/
  | bol : RItem

/-- Capture groups recorded so far (later entries shadow earlier ones). -/
abbrev Caps := List (Nat × List Char)

def capWrite (slot : Option Nat) (v : List Char) (caps : Caps) : Caps :=
  match slot with
  | none => caps
  | some k => (k, v) :: caps

/-- `match[k]` : the capture of group `k`, if the group participated. -/
def capGet (k : Nat) (caps : Caps) : Option (List Char) :=
  (caps.find? (fun p => p.1 == k)).map (fun p => p.2)

/-- `match[k]` where the group is known to participate in every match. -/
def capGetD (k : Nat) (caps : Caps) : List Char := (capGet k caps).getD []

/-- Strip a literal (with optional case folding) from the front. -/
def stripLit (ci : Bool) : List Char → List Char → Option (List Char)
  | [], s => some s
  | _ :: _, [] => none
  | p :: ps, c :: cs => if charCI ci p c then stripLit ci ps cs else none

/-- All ways one item can consume a prefix of `s`, in the order the JS
backtracking engine tries them.  Each candidate is
`(rest of the string, captures, atStart flag for what follows)`. -/
def candidatesFor (it : RItem) (atStart : Bool) (s : List Char) (caps : Caps) :
    List (List Char × Caps × Bool) :=
  match it with
  | .bol => if atStart then [(s, caps, atStart)] else []
  | .chr p =>
    match s with
    | [] => []
    | c :: cs => if p c then [(cs, caps, false)] else []
  | .lit t ci =>
    match stripLit ci t.toList s with
    | some s' => [(s', caps, atStart && t.toList.isEmpty)]
    | none => []
  | .alts ts ci =>
    ts.filterMap (fun t =>
      (stripLit ci t.toList s).map (fun s' => (s', caps, atStart && t.toList.isEmpty)))
  | .rep p one lz slot =>
    let m := (s.takeWhile p).length
    let lo := if one then 1 else 0
    if lo ≤ m then
      let ns := List.range' lo (m + 1 - lo)
      let ns := if lz then ns else ns.reverse
      ns.map (fun n => (s.drop n, capWrite slot (s.take n) caps, atStart && n == 0))
    else []

/-- Fueled matcher for an item list at a fixed position; the fuel is always
called with `items.length + 1`, so the `0` branch is unreachable and the
definition is structurally recursive (hence kernel-reducible). -/
def matchItemsF : Nat → List RItem → Bool → List Char → Caps →
    Option (List Char × Caps)
  | 0, _, _, _, _ => none
  | _ + 1, [], _, s, caps => some (s, caps)
  | f + 1, it :: rest, atStart, s, caps =>
    (candidatesFor it atStart s caps).findSome?
      (fun c => matchItemsF f rest c.2.2 c.1 c.2.1)

/-- Try to match an item list at the current position, with backtracking;
returns the rest of the string after the match, and the captures. -/
def matchItems (items : List RItem) (atStart : Bool) (s : List Char)
    (caps : Caps) : Option (List Char × Caps) :=
  matchItemsF (items.length + 1) items atStart s caps

/-- Try each alternative of a pattern at the current position. -/
def searchAt (vars : List (List RItem)) (atStart : Bool) (s : List Char) :
    Option (List Char × Caps) :=
  vars.findSome? (fun v => matchItems v atStart s [])

/-- Leftmost search: try every position, earliest first. -/
def searchFrom (vars : List (List RItem)) : Bool → List Char →
    Option (List Char × Caps)
  | atStart, [] => searchAt vars atStart []
  | atStart, c :: cs =>
    match searchAt vars atStart (c :: cs) with
    | some r => some r
    | none => searchFrom vars false cs

/-- `String.prototype.match` without the `g` flag: the captures of the first
match, or `none`. -/
def jsSearch (vars : List (List RItem)) (s : String) : Option Caps :=
  (searchFrom vars true s.toList).map (fun r => r.2)

/-- `RegExp.prototype.test`. -/
def jsTest (vars : List (List RItem)) (s : String) : Bool :=
  (searchFrom vars true s.toList).isSome

/-- Fueled repeated search (`exec` in a `while` loop with the `g` flag);
every pattern below consumes at least one character per match, so fuel
`s.length + 1` never runs out before the matches do. -/
def searchAllF : Nat → List (List RItem) → Bool → List Char → List Caps
  | 0, _, _, _ => []
  | f + 1, vars, atStart, s =>
    match searchFrom vars atStart s with
    | none => []
    | some (rem, caps) => caps :: searchAllF f vars false rem

/-- All matches of a global regex, in order, as capture records. -/
def searchAll (vars : List (List RItem)) (s : String) : List Caps :=
  searchAllF (s.toList.length + 1) vars true s.toList

/-! ### Equation and unfolding lemmas for the matcher -/

theorem matchItems_nil (st : Bool) (s : List Char) (caps : Caps) :
    matchItems [] st s caps = some (s, caps) := rfl

theorem matchItems_cons (it : RItem) (rest : List RItem) (st : Bool)
    (s : List Char) (caps : Caps) :
    matchItems (it :: rest) st s caps =
      (candidatesFor it st s caps).findSome?
        (fun c => matchItems rest c.2.2 c.1 c.2.1) := rfl

theorem searchFrom_cons (vars : List (List RItem)) (st : Bool) (c : Char)
    (s : List Char) :
    searchFrom vars st (c :: s) =
      match searchAt vars st (c :: s) with
      | some r => some r
      | none => searchFrom vars false s := rfl

theorem searchFrom_of_searchAt {vars : List (List RItem)} {st : Bool}
    {s : List Char} {r : List Char × Caps} (h : searchAt vars st s = some r) :
    searchFrom vars st s = some r := by
  cases s with
  | nil => simpa [searchFrom] using h
  | cons c cs => simp [searchFrom, h]

/-! ### Capture-state irrelevance

Whether a pattern matches never depends on the captures accumulated so far:
the matcher only appends to them.  This lets concrete "no match" facts about
empty capture states be reused under arbitrary capture states. -/

theorem capWrite_append (slot : Option Nat) (v : List Char) (caps : Caps) :
    capWrite slot v [] ++ caps = capWrite slot v caps := by
  cases slot <;> simp [capWrite]

theorem map_capgen (L : List Nat) (s : List Char) (caps : Caps)
    (slot : Option Nat) (st : Bool) :
    L.map (fun n => (s.drop n, capWrite slot (s.take n) caps, st && n == 0)) =
      (L.map (fun n => (s.drop n, capWrite slot (s.take n) ([] : Caps), st && n == 0))).map
        (fun c => (c.1, c.2.1 ++ caps, c.2.2)) := by
  rw [List.map_map]
  apply List.map_congr_left
  intro n _
  simp only [Function.comp]
  rw [capWrite_append]

theorem candidatesFor_capsShift (it : RItem) (st : Bool) (s : List Char)
    (caps : Caps) :
    candidatesFor it st s caps =
      (candidatesFor it st s []).map (fun c => (c.1, c.2.1 ++ caps, c.2.2)) := by
  cases it with
  | bol => by_cases h : st <;> simp [candidatesFor, h]
  | chr p =>
    cases s with
    | nil => simp [candidatesFor]
    | cons c cs => by_cases h : p c <;> simp [candidatesFor, h]
  | lit t ci =>
    simp only [candidatesFor]
    cases h : stripLit ci t.toList s <;> simp [h]
  | alts ts ci =>
    simp only [candidatesFor]
    rw [List.map_filterMap]
    apply List.filterMap_congr
    intro t _
    cases h : stripLit ci t.toList s <;> simp [h]
  | rep p one lz slot =>
    simp only [candidatesFor]
    split
    all_goals split
    all_goals simp [capWrite_append]

theorem findSome?_isSome_congr {α β : Type} {l : List α} {f g : α → Option β}
    (h : ∀ a ∈ l, (f a).isSome = (g a).isSome) :
    (l.findSome? f).isSome = (l.findSome? g).isSome := by
  induction l with
  | nil => simp
  | cons a t ih =>
    have ha := h a (by simp)
    rw [List.findSome?_cons, List.findSome?_cons]
    cases hfa : f a with
    | some b =>
      rw [hfa] at ha
      cases hga : g a with
      | some c => simp
      | none => rw [hga] at ha; simp at ha
    | none =>
      rw [hfa] at ha
      cases hga : g a with
      | some c => rw [hga] at ha; simp at ha
      | none => exact ih (fun x hx => h x (by simp [hx]))

theorem matchItemsF_caps_isSome : ∀ (f : Nat) (items : List RItem) (st : Bool)
    (s : List Char) (caps caps' : Caps),
    (matchItemsF f items st s caps).isSome =
      (matchItemsF f items st s caps').isSome := by
  intro f
  induction f with
  | zero => intros; rfl
  | succ f ih =>
    intro items st s caps caps'
    cases items with
    | nil => rfl
    | cons it rest =>
      show ((candidatesFor it st s caps).findSome? _).isSome =
        ((candidatesFor it st s caps').findSome? _).isSome
      rw [candidatesFor_capsShift it st s caps, candidatesFor_capsShift it st s caps',
        List.findSome?_map, List.findSome?_map]
      apply findSome?_isSome_congr
      intro a _
      exact ih rest a.2.2 a.1 (a.2.1 ++ caps) (a.2.1 ++ caps')

theorem matchItems_none_caps {items : List RItem} {st : Bool} {s : List Char}
    (caps : Caps) (h : matchItems items st s [] = none) :
    matchItems items st s caps = none := by
  have hs := matchItemsF_caps_isSome (items.length + 1) items st s caps []
  cases hc : matchItems items st s caps with
  | none => rfl
  | some r =>
    rw [matchItems] at hc h
    rw [hc, h] at hs
    simp at hs

/-! ### Stepping lemmas for greedy `+` repetition over a parametric run -/

theorem takeWhile_all_app {p : Char → Bool} (a w : List Char)
    (ha : ∀ c ∈ a, p c = true) (hw : ∀ c t, w = c :: t → p c = false) :
    (a ++ w).takeWhile p = a := by
  induction a with
  | nil =>
    cases w with
    | nil => rfl
    | cons c t => simp [List.takeWhile_cons, hw c t rfl]
  | cons c a' ih =>
    have hc : p c = true := ha c (by simp)
    simp only [List.cons_append, List.takeWhile_cons, hc, if_true]
    rw [ih (fun x hx => ha x (by simp [hx]))]

/-- The candidate list of a greedy `cls+` item, written out. -/
theorem candidatesFor_repGreedy1 (p : Char → Bool) (slot : Option Nat)
    (st : Bool) (s : List Char) (caps : Caps) :
    candidatesFor (.rep p true false slot) st s caps =
      if 1 ≤ (s.takeWhile p).length then
        ((List.range' 1 (s.takeWhile p).length).reverse).map
          (fun n => (s.drop n, capWrite slot (s.take n) caps, st && n == 0))
      else [] := by
  simp [candidatesFor]

/-- Greedy `cls+`: when the rest of the pattern matches what follows the
maximal run, the first candidate already succeeds, capturing the whole run. -/
theorem rep_step_pos {p : Char → Bool} {slot : Option Nat} {rest : List RItem}
    {a w : List Char} {st : Bool} {caps : Caps} {r : List Char × Caps}
    (ha : a ≠ []) (hall : ∀ c ∈ a, p c = true)
    (hw : ∀ c t, w = c :: t → p c = false)
    (hrest : matchItems rest false w (capWrite slot a caps) = some r) :
    matchItems (.rep p true false slot :: rest) st (a ++ w) caps = some r := by
  rw [matchItems_cons, candidatesFor_repGreedy1]
  have htw := takeWhile_all_app a w hall hw
  rw [htw]
  have hm : 1 ≤ a.length := by
    cases a with
    | nil => exact absurd rfl ha
    | cons _ _ => simp
  obtain ⟨m', hm'⟩ : ∃ m', a.length = m' + 1 := ⟨a.length - 1, by omega⟩
  rw [if_pos hm, hm', List.range'_concat, List.reverse_append, List.reverse_cons,
    List.reverse_nil, List.nil_append, List.cons_append, List.map_cons,
    List.findSome?_cons]
  have hlen : 1 + 1 * m' = a.length := by omega
  have hd : (a ++ w).drop (1 + 1 * m') = w := by rw [hlen, List.drop_left]
  have ht : (a ++ w).take (1 + 1 * m') = a := by rw [hlen, List.take_left]
  have hz : (1 + 1 * m' == 0) = false := by
    apply beq_eq_false_iff_ne.mpr
    omega
  rw [hd, ht, hz, Bool.and_false]
  simp [hrest]

/-- Greedy `cls+`: if the rest of the pattern fails both after the full run
and after any nonempty proper prefix of it (i.e. on any `cls`-headed string),
no candidate succeeds. -/
theorem rep_step_neg {p : Char → Bool} {slot : Option Nat} {rest : List RItem}
    {a w : List Char} {st : Bool} {caps : Caps}
    (hall : ∀ c ∈ a, p c = true)
    (hw : ∀ c t, w = c :: t → p c = false)
    (hwfail : matchItems rest false w [] = none)
    (hdig : ∀ c t caps', p c = true → matchItems rest false (c :: t) caps' = none) :
    matchItems (.rep p true false slot :: rest) st (a ++ w) caps = none := by
  rw [matchItems_cons, candidatesFor_repGreedy1]
  have htw := takeWhile_all_app a w hall hw
  rw [htw]
  by_cases hm : 1 ≤ a.length
  · rw [if_pos hm]
    apply List.findSome?_eq_none_iff.mpr
    intro x hx
    rw [List.mem_map] at hx
    obtain ⟨n, hn, hfx⟩ := hx
    rw [List.mem_reverse, List.mem_range'_1] at hn
    subst hfx
    have hn1 : 1 ≤ n ∧ n ≤ a.length := by omega
    have hz : (n == 0) = false := by
      apply beq_eq_false_iff_ne.mpr
      omega
    simp only [hz, Bool.and_false]
    by_cases hcase : n < a.length
    · have hdrop : (a ++ w).drop n = a.drop n ++ w :=
        List.drop_append_of_le_length (by omega)
      have hget : a.drop n = a[n] :: a.drop (n + 1) := List.drop_eq_getElem_cons hcase
      rw [hdrop, hget, List.cons_append]
      exact hdig _ _ _ (hall _ (List.getElem_mem hcase))
    · have hn' : n = a.length := by omega
      rw [hn', List.drop_left]
      exact matchItems_none_caps _ hwfail
  · rw [if_neg hm]
    simp

theorem searchAt_single (v : List RItem) (st : Bool) (s : List Char) :
    searchAt [v] st s = matchItems v st s [] := by
  rw [searchAt, List.findSome?_cons]
  cases h : matchItems v st s [] <;> simp

/-- Searching a one-variant pattern `\d+ …` in `digits ++ w`: if the rest of
the pattern fails on every digit-headed string and the whole pattern fails
everywhere in `w`, there is no match. -/
theorem searchFrom_digApp_none {R : List RItem} {slot : Option Nat}
    {w : List Char}
    (hRdig : ∀ c t caps', isDig c = true →
      matchItems R false (c :: t) caps' = none)
    (hRw : matchItems R false w [] = none)
    (hwT : searchFrom [RItem.rep isDig true false slot :: R] true w = none)
    (hwF : searchFrom [RItem.rep isDig true false slot :: R] false w = none)
    (hw : ∀ c t, w = c :: t → isDig c = false) :
    ∀ (ds : List Char) (st : Bool), (∀ c ∈ ds, isDig c = true) →
      searchFrom [RItem.rep isDig true false slot :: R] st (ds ++ w) = none := by
  intro ds
  induction ds with
  | nil =>
    intro st _
    cases st
    · exact hwF
    · exact hwT
  | cons d ds' ih =>
    intro st hds
    rw [List.cons_append, searchFrom_cons, searchAt_single]
    have hneg : matchItems (RItem.rep isDig true false slot :: R) st
        ((d :: ds') ++ w) [] = none := by
      apply rep_step_neg
      · exact fun c hc => hds c hc
      · exact hw
      · exact hRw
      · exact hRdig
    rw [List.cons_append] at hneg
    rw [hneg]
    exact ih false (fun c hc => hds c (by simp [hc]))

/-! ## Decimal numerals (to state "for every N" over the JS number texts) -/

/-- The decimal digit character for `k % 10`-style arguments. -/
def digitChar : Nat → Char
  | 0 => '0' | 1 => '1' | 2 => '2' | 3 => '3' | 4 => '4'
  | 5 => '5' | 6 => '6' | 7 => '7' | 8 => '8' | _ => '9'

/-- Fueled most-significant-first decimal digits; fuel `n` suffices. -/
def natDigitsF : Nat → Nat → List Char
  | 0, _ => []
  | _ + 1, 0 => []
  | f + 1, n + 1 => natDigitsF f ((n + 1) / 10) ++ [digitChar ((n + 1) % 10)]

/-- The decimal numeral of a positive number (`[]` for `0`). -/
def natDigits (n : Nat) : List Char := natDigitsF n n

/-- The decimal numeral of any number, as written in a duration or frequency
text ("6" in "every 6 hours"). -/
def natReprL (n : Nat) : List Char := if n = 0 then ['0'] else natDigits n

def natRepr (n : Nat) : String := String.mk (natReprL n)

theorem digitChar_isDig (k : Nat) : isDig (digitChar k) = true := by
  unfold digitChar
  split <;> decide

theorem digitChar_val {k : Nat} (h : k < 10) : (digitChar k).toNat - 48 = k := by
  interval_cases k <;> decide

theorem natDigitsF_all_dig : ∀ (f n : Nat), ∀ c ∈ natDigitsF f n, isDig c = true := by
  intro f
  induction f with
  | zero => intro n c hc; simp [natDigitsF] at hc
  | succ f ih =>
    intro n c hc
    cases n with
    | zero => simp [natDigitsF] at hc
    | succ n =>
      rw [natDigitsF] at hc
      rcases List.mem_append.mp hc with h | h
      · exact ih _ c h
      · rw [List.mem_singleton] at h
        rw [h]
        exact digitChar_isDig _

theorem jsParseInt_append_digit (cs : List Char) (c : Char) :
    jsParseInt (cs ++ [c]) = jsParseInt cs * 10 + (c.toNat - 48) := by
  rw [jsParseInt, List.foldl_append]
  rfl

theorem natDigitsF_parse : ∀ (f n : Nat), n ≤ f → jsParseInt (natDigitsF f n) = n := by
  intro f
  induction f with
  | zero => intro n hn; interval_cases n; rfl
  | succ f ih =>
    intro n hn
    cases n with
    | zero => rfl
    | succ n =>
      rw [natDigitsF, jsParseInt_append_digit, digitChar_val (Nat.mod_lt _ (by omega))]
      rw [ih ((n + 1) / 10) (by omega)]
      omega

theorem natReprL_all_dig (n : Nat) : ∀ c ∈ natReprL n, isDig c = true := by
  intro c hc
  rw [natReprL] at hc
  split at hc
  · rw [List.mem_singleton] at hc
    rw [hc]; decide
  · exact natDigitsF_all_dig _ _ c hc

theorem natReprL_ne_nil (n : Nat) : natReprL n ≠ [] := by
  rw [natReprL]
  split
  · simp
  · rename_i h
    rw [natDigits]
    cases hn : n with
    | zero => exact absurd hn h
    | succ m =>
      rw [natDigitsF]
      simp

theorem natReprL_parse (n : Nat) : jsParseInt (natReprL n) = n := by
  rw [natReprL]
  split
  · rename_i h
    rw [h]; rfl
  · exact natDigitsF_parse n n (le_refl n)

/-! ## The prescription parser of `src/components/ReminderForm.tsx`

Transcriptions of the regex literals.  `X?` on a literal is transcribed as
the ordered alternatives "with X" / "without X" (the greedy order); an
optional group `(?:x)?` becomes two whole-pattern variants, "with x" first. -/

/-- `/every\s+(\d+)\s+hours/` (case-sensitive) from `getFrequencyHours`. -/
def everyNHoursRE : List (List RItem) :=
  [[.lit "every" false, .rep jsWs true false none, .rep isDig true false (some 1),
    .rep jsWs true false none, .lit "hours" false]]

/-- `/(\d+)\s*Days?/i` from the Format 1 duration parsing. -/
def format1DaysRE : List (List RItem) :=
  [[.rep isDig true false (some 1), .rep jsWs false false none,
    .alts ["Days", "Day"] true]]

/-- `/(\d+)\s*weeks?/i` from the Format 1 duration parsing. -/
def format1WeeksRE : List (List RItem) :=
  [[.rep isDig true false (some 1), .rep jsWs false false none,
    .alts ["weeks", "week"] true]]

/-- `/(\d+)\s*weeks?/i` from the Format 2 duration parsing. -/
def format2WeeksRE : List (List RItem) :=
  [[.rep isDig true false (some 1), .rep jsWs false false none,
    .alts ["weeks", "week"] true]]

/-- `/(\d+)\s*days?/i` from the Format 2 duration parsing. -/
def format2DaysRE : List (List RItem) :=
  [[.rep isDig true false (some 1), .rep jsWs false false none,
    .alts ["days", "day"] true]]

/-- `/(\d+)-(\d+)-(\d+)/` — the "D-D-D" dosage pattern. -/
def dddRE : List (List RItem) :=
  [[.rep isDig true false (some 1), .lit "-" false, .rep isDig true false (some 2),
    .lit "-" false, .rep isDig true false (some 3)]]

/-- Format 1:
`/\*\s+\*\*([^*]+?)\*\*\s*[\r\n]\s*\+\s+Dosage:\s*([^\r\n]+)[\r\n]\s*\+\s+Duration:\s*([^\r\n]+)/gi`. -/
def format1RegexVars : List (List RItem) :=
  [[.lit "*" true, .rep jsWs true false none, .lit "**" true,
    .rep (fun c => !(c == '*')) true true (some 1), .lit "**" true,
    .rep jsWs false false none, .chr isCRLF, .rep jsWs false false none,
    .lit "+" true, .rep jsWs true false none, .lit "Dosage:" true,
    .rep jsWs false false none, .rep (fun c => !(isCRLF c)) true false (some 2),
    .chr isCRLF, .rep jsWs false false none, .lit "+" true,
    .rep jsWs true false none, .lit "Duration:" true, .rep jsWs false false none,
    .rep (fun c => !(isCRLF c)) true false (some 3)]]

/-- The common tail of the Format 2 regex, after the optional strength group:
`\s*\n\s*\*\s*\*\*Dosage\*\*:\s*([^\n]+)\n\s*\*\s*\*\*Duration\*\*:\s*([^\n]+)`. -/
def format2Tail : List RItem :=
  [.rep jsWs false false none, .chr (fun c => c == '\n'), .rep jsWs false false none,
   .lit "*" true, .rep jsWs false false none, .lit "**Dosage**:" true,
   .rep jsWs false false none, .rep (fun c => !(c == '\n')) true false (some 3),
   .chr (fun c => c == '\n'), .rep jsWs false false none, .lit "*" true,
   .rep jsWs false false none, .lit "**Duration**:" true, .rep jsWs false false none,
   .rep (fun c => !(c == '\n')) true false (some 4)]

/-- Format 2:
`/\*\*([^*]+?)\*\*(?:\s*\(([^)]+)\))?\s*\n\s*\*\s*\*\*Dosage\*\*:\s*([^\n]+)\n\s*\*\s*\*\*Duration\*\*:\s*([^\n]+)/gi`. -/
def format2RegexVars : List (List RItem) :=
  [[.lit "**" true, .rep (fun c => !(c == '*')) true true (some 1), .lit "**" true,
    .rep jsWs false false none, .lit "(" true,
    .rep (fun c => !(c == ')')) true false (some 2), .lit ")" true] ++ format2Tail,
   [.lit "**" true, .rep (fun c => !(c == '*')) true true (some 1), .lit "**" true] ++
     format2Tail]

/-- The five `headerPatterns` of the table branch: `/^\s*\|[\s-]*\|/`,
`/\|\s*Medicine\s*Name\s*\|/i`, `/\|\s*Dosage\s*\|/i`, `/\|\s*Duration\s*\|/i`,
`/\|\s*Notes?\s*\|/i`. -/
def headerTableVars : List (List (List RItem)) :=
  [[[.bol, .rep jsWs false false none, .lit "|" false,
     .rep (fun c => jsWs c || c == '-') false false none, .lit "|" false]],
   [[.lit "|" true, .rep jsWs false false none, .lit "Medicine" true,
     .rep jsWs false false none, .lit "Name" true, .rep jsWs false false none,
     .lit "|" true]],
   [[.lit "|" true, .rep jsWs false false none, .lit "Dosage" true,
     .rep jsWs false false none, .lit "|" true]],
   [[.lit "|" true, .rep jsWs false false none, .lit "Duration" true,
     .rep jsWs false false none, .lit "|" true]],
   [[.lit "|" true, .rep jsWs false false none, .lit "Notes" true,
     .rep jsWs false false none, .lit "|" true],
    [.lit "|" true, .rep jsWs false false none, .lit "Note" true,
     .rep jsWs false false none, .lit "|" true]]]

/-- `(?:TAB\.|Tab\.|CAP\.|Cap\.|SUSPENSION|Suspension|DROP|Drop)` from
`medNamePattern`. -/
def drugFormAlts : RItem :=
  .alts ["TAB.", "Tab.", "CAP.", "Cap.", "SUSPENSION", "Suspension", "DROP", "Drop"] true

/-- `(?:\s*\(([^)]+)\))?` — the optional composition group (present case). -/
def compGroup : List RItem :=
  [.rep jsWs false false none, .lit "(" true,
   .rep (fun c => !(c == ')')) true false (some 2), .lit ")" true]

/-- `\s+([^|(]+)` — the separator and the medicine-name capture. -/
def nameCap : List RItem :=
  [.rep jsWs true false none,
   .rep (fun c => !(c == '|') && !(c == '(')) true false (some 1)]

/-- `medNamePattern` =
`/(?:^\d+\)?\s*)?(?:med\s+)?(?:TAB\.|Tab\.|CAP\.|Cap\.|SUSPENSION|Suspension|DROP|Drop)\.?\s+([^|(]+)(?:\s*\(([^)]+)\))?/i`;
the three optional groups (and the inner `\)?`) expand to variants, each
"present" case before its "absent" case. -/
def medNamePatternVars : List (List RItem) :=
  [[.bol, .rep isDig true false none, .lit ")" true, .rep jsWs false false none],
   [.bol, .rep isDig true false none, .rep jsWs false false none],
   ([] : List RItem)].flatMap (fun pre =>
    [[.lit "med" true, .rep jsWs true false none], ([] : List RItem)].flatMap (fun med =>
      [[.lit "." true], ([] : List RItem)].flatMap (fun dot =>
        [compGroup, ([] : List RItem)].map (fun comp =>
          pre ++ med ++ [drugFormAlts] ++ dot ++ nameCap ++ comp))))

/-- `numberedPattern` =
`/^\d+\)\s*(?:TAB\.|CAP\.|SUSPENSION|DROP)\.\s+([^|(]+)(?:\s*\(([^)]+)\))?/i`. -/
def numberedPatternVars : List (List RItem) :=
  [compGroup, ([] : List RItem)].map (fun comp =>
    [.bol, .rep isDig true false none, .lit ")" true, .rep jsWs false false none,
     .alts ["TAB.", "CAP.", "SUSPENSION", "DROP"] true, .lit "." true] ++
      nameCap ++ comp)

/-- `/tab\.|cap\.|suspension|drop/i` (the `medInfo` column test). -/
def drugTestRE : List (List RItem) :=
  [[.alts ["tab.", "cap.", "suspension", "drop"] true]]

/-- The dosage-column test regex: the `i`-flagged alternation of
`Morning`, `Night`, `Daily`, `Hourly`, `units`, `ml` and the hyphen. -/
def dosageKeyRE : List (List RItem) :=
  [[.alts ["Morning", "Night", "Daily", "Hourly", "units", "ml", "-"] true]]

/-- `/days?|weeks?|month/i` (the duration-column test). -/
def durationKeyRE : List (List RItem) :=
  [[.alts ["days", "day", "weeks", "week", "month"] true]]

/-- `/(\d+)\s*hourly/i`. -/
def hourlyRE : List (List RItem) :=
  [[.rep isDig true false (some 1), .rep jsWs false false none, .lit "hourly" true]]

/-- `/(\d+)\s*days?/i` from the table duration parsing. -/
def tableDaysRE : List (List RItem) :=
  [[.rep isDig true false (some 1), .rep jsWs false false none,
    .alts ["days", "day"] true]]

/-- `/(\d+)\s*weeks?/i` from the table duration parsing. -/
def tableWeeksRE : List (List RItem) :=
  [[.rep isDig true false (some 1), .rep jsWs false false none,
    .alts ["weeks", "week"] true]]

/-- `/(\d+)\s*month/i` from the table duration parsing. -/
def tableMonthRE : List (List RItem) :=
  [[.rep isDig true false (some 1), .rep jsWs false false none, .lit "month" true]]

/-- `/one\s*month/i` from the table duration parsing. -/
def oneMonthRE : List (List RItem) :=
  [[.lit "one" true, .rep jsWs false false none, .lit "month" true]]

/-- The transient parser output record (never persisted). -/
structure MedicineDetails where
  name : String
  dosage : String
  frequency : String
  duration : Nat
  notes : String
deriving Repr, DecidableEq

/-- `dosage.match(/(\d+)-(\d+)-(\d+)/)`, with the three captures already
passed through `parseInt`, as the Format 1/2 loops do. -/
def findDDD (dosage : String) : Option (Nat × Nat × Nat) :=
  (jsSearch dddRE dosage).map (fun caps =>
    (jsParseInt (capGetD 1 caps), jsParseInt (capGetD 2 caps),
      jsParseInt (capGetD 3 caps)))

/-- The frequency derivation inlined in the Format 1 loop
(`ReminderForm.tsx` lines 78–106): the "D-D-D" pattern counts its nonzero
digits; otherwise morning/night keyword fallbacks apply. -/
def format1Frequency (dosage : String) : String :=
  match findDDD dosage with
  | some t =>
    let morning := decide (0 < t.1)
    let afternoon := decide (0 < t.2.1)
    let night := decide (0 < t.2.2)
    let timesPerDay := ([morning, afternoon, night].filter (fun b => b)).length
    if timesPerDay = 3 then "thrice daily"
    else if timesPerDay = 2 then "twice daily"
    else "once daily"
  | none =>
    if containsSub (jsLower dosage) "morning" && containsSub (jsLower dosage) "night" then
      "twice daily"
    else if containsSub (jsLower dosage) "morning" then "once daily"
    else if containsSub (jsLower dosage) "night" || containsSub (jsLower dosage) "evening" then
      "once daily"
    else "once daily"

/-- The frequency derivation inlined in the Format 2 loop (lines 140–158):
only the "D-D-D" pattern, no keyword fallbacks. -/
def format2Frequency (dosage : String) : String :=
  match findDDD dosage with
  | some t =>
    let morning := decide (0 < t.1)
    let afternoon := decide (0 < t.2.1)
    let night := decide (0 < t.2.2)
    let timesPerDay := ([morning, afternoon, night].filter (fun b => b)).length
    if timesPerDay = 3 then "thrice daily"
    else if timesPerDay = 2 then "twice daily"
    else "once daily"
  | none => "once daily"

/-- The duration parsing inlined in the Format 1 loop (lines 63–76):
days first, then a bare `month` check (always 30), then weeks × 7,
otherwise the default 7. -/
def format1ParseDuration (durationText : String) : Nat :=
  let daysMatch := jsSearch format1DaysRE durationText
  let monthMatch := containsSub (jsLower durationText) "month"
  let weeksMatch := jsSearch format1WeeksRE durationText
  match daysMatch with
  | some caps => jsParseInt (capGetD 1 caps)
  | none =>
    if monthMatch then 30
    else
      match weeksMatch with
      | some caps => jsParseInt (capGetD 1 caps) * 7
      | none => 7

/-- The duration parsing inlined in the Format 2 loop (lines 125–138). -/
def format2ParseDuration (durationText : String) : Nat :=
  if containsSub (jsLower durationText) "month" then 30
  else if containsSub (jsLower durationText) "week" then
    match jsSearch format2WeeksRE durationText with
    | some caps => jsParseInt (capGetD 1 caps) * 7
    | none => 7
  else if containsSub (jsLower durationText) "day" then
    match jsSearch format2DaysRE durationText with
    | some caps => jsParseInt (capGetD 1 caps)
    | none => 7
  else if containsSub (jsLower durationText) "one month" then 30
  else 7

/-- `getFrequencyHours` (`ReminderForm.tsx` lines 268–282): an
`every N hours` match wins, then the lowercased switch. -/
def getFrequencyHours (frequency : String) : Nat :=
  match jsSearch everyNHoursRE frequency with
  | some caps => jsParseInt (capGetD 1 caps)
  | none =>
    if jsLower frequency == "twice daily" then 12
    else if jsLower frequency == "thrice daily" then 8
    else 24

/-- One entry pushed by the Format 1 loop (lines 108–114). -/
def format1Entry (caps : Caps) : MedicineDetails :=
  let medicineName := jsTrim (String.mk (capGetD 1 caps))
  let dosage := jsTrim (String.mk (capGetD 2 caps))
  let durationText := jsTrim (String.mk (capGetD 3 caps))
  { name := medicineName, dosage := dosage,
    frequency := format1Frequency dosage,
    duration := format1ParseDuration durationText,
    notes := durationText }

/-- One entry pushed by the Format 2 loop (lines 119–167). -/
def format2Entry (caps : Caps) : MedicineDetails :=
  let medicineName := jsTrim (String.mk (capGetD 1 caps))
  let strength :=
    match capGet 2 caps with
    | some s => " (" ++ jsTrim (String.mk s) ++ ")"
    | none => ""
  let dosage := jsTrim (String.mk (capGetD 3 caps))
  let durationText := jsTrim (String.mk (capGetD 4 caps))
  { name := medicineName ++ strength, dosage := dosage,
    frequency := format2Frequency dosage,
    duration := format2ParseDuration durationText,
    notes := "" }

/-- The table-branch duration derivation (lines 217–231). -/
def extractDurationFromParts (parts : List String) : Nat :=
  match parts.find? (fun part => jsTest durationKeyRE part) with
  | none => 7
  | some durationMatch =>
    match jsSearch tableDaysRE durationMatch with
    | some caps => jsParseInt (capGetD 1 caps)
    | none =>
      match jsSearch tableWeeksRE durationMatch with
      | some caps => jsParseInt (capGetD 1 caps) * 7
      | none =>
        if (jsSearch tableMonthRE durationMatch).isSome ||
            (jsSearch oneMonthRE durationMatch).isSome then 30
        else 7

/-- The table-branch frequency derivation (lines 209–215). -/
def tableFrequency (dosageInfo : String) : String :=
  if containsSub (jsLower dosageInfo) "morning" && containsSub (jsLower dosageInfo) "night" then
    "twice daily"
  else
    match jsSearch hourlyRE dosageInfo with
    | some caps => "every " ++ String.mk (capGetD 1 caps) ++ " hours"
    | none => "once daily"

/-- One iteration of the table loop (lines 183–242): skip blank and header
lines; a line with a `|` is split into trimmed cells, the medicine-name cell
is matched against `medNamePattern` / `numberedPattern`, and an entry is
pushed only if a name is found. -/
def tableLine (line : String) : Option MedicineDetails :=
  if jsTrim line == "" then none
  else if headerTableVars.any (fun pat => jsTest pat line) then none
  else if containsSub line "|" then
    let parts := (splitChars (fun c => c == '|') line.toList).map
      (fun cs => String.mk (trimChars cs))
    let part0 := parts.getD 0 ""
    let medInfo :=
      if containsSub (jsLower part0) "med" || jsTest drugTestRE part0 then part0
      else parts.getD 1 ""
    match (jsSearch medNamePatternVars medInfo) <|> (jsSearch numberedPatternVars medInfo) with
    | some caps =>
      let medicineName := jsTrim (String.mk (capGetD 1 caps))
      let composition :=
        match capGet 2 caps with
        | some s => " (" ++ String.mk s ++ ")"
        | none => ""
      let dosageInfo := (parts.find? (fun part => jsTest dosageKeyRE part)).getD
        "1 unit daily"
      some { name := medicineName ++ composition, dosage := dosageInfo,
             frequency := tableFrequency dosageInfo,
             duration := extractDurationFromParts parts, notes := "" }
    | none => none
  else none

/-- `extractMedicineDetails` (`ReminderForm.tsx` lines 43–246): Format 1
matches, else Format 2 matches, else the line-by-line table scan; an input
with no recognized content yields `[]`. -/
def extractMedicineDetails (text : String) : List MedicineDetails :=
  let m1 := (searchAll format1RegexVars text).map format1Entry
  if m1.isEmpty then
    let m2 := (searchAll format2RegexVars text).map format2Entry
    if m2.isEmpty then
      ((splitChars (fun c => c == '\n') text.toList).map String.mk).filterMap tableLine
    else m2
  else m1

/-! ## The scheduler of `src/lib/reminderScheduler.ts` and the storage
accessor of `src/lib/api.ts` -/

/-- The persisted reminder record (`src/lib/types.ts`).  Timestamps are
milliseconds since the epoch. -/
structure Reminder where
  id : String
  medicineName : String
  dosage : String
  /-- hours between doses -/
  frequency : Nat
  /-- next scheduled dose, ms -/
  nextDue : Nat
  /-- days the course runs -/
  duration : Nat
  notes : Option String
  createdAt : Nat
deriving Repr, DecidableEq

def msPerHour : Nat := 3600000

/-- `new Date(reminder.nextDue) <= now` — the due test of the scheduler. -/
def dueAt (now : Nat) (r : Reminder) : Bool := r.nextDue ≤ now

/-- `newNextDue = new Date(); newNextDue.setHours(newNextDue.getHours() +
reminder.frequency)` — the recomputation from the firing instant. -/
def fireUpdate (now : Nat) (r : Reminder) : Reminder :=
  { r with nextDue := now + r.frequency * msPerHour }

/-- Result of the `for` loop inside `checkRemindersNow`: the stored
collection after the pass, the ids for which `triggerReminderNotification`
ran, and whether an `updateReminder` rejection aborted the loop (throwing to
the surrounding `try`). -/
structure PassResult where
  stored : List Reminder
  fired : List String
  aborted : Bool
deriving Repr, DecidableEq

/-- The reminder loop of `checkRemindersNow` (`reminderScheduler.ts` lines
28–47).  `persistFail id = true` models `updateReminder(id, …)` rejecting;
the rejection is thrown out of the loop, so the remaining reminders of the
pass are left untouched (the failing reminder keeps its stale `nextDue`,
though its notification already fired). -/
def checkLoop (persistFail : String → Bool) (now : Nat) :
    List Reminder → PassResult
  | [] => ⟨[], [], false⟩
  | r :: rest =>
    if dueAt now r then
      if persistFail r.id then ⟨r :: rest, [r.id], true⟩
      else
        let o := checkLoop persistFail now rest
        ⟨fireUpdate now r :: o.stored, r.id :: o.fired, o.aborted⟩
    else
      let o := checkLoop persistFail now rest
      ⟨r :: o.stored, o.fired, o.aborted⟩

/-- Observable outcome of one `checkRemindersNow()` call (lines 19–59):
the stored collection afterwards, the fired ids, the returned boolean
(`remindersUpdated`, or `false` from the `catch`), whether the `catch` ran,
and whether `scheduleNextCheck()` was invoked at the end of the pass —
which the code does only when `remindersUpdated` is `true`, a line reached
only when no exception was thrown. -/
structure CheckResult where
  stored : List Reminder
  fired : List String
  returned : Bool
  errorCaught : Bool
  schedulesNext : Bool
deriving Repr, DecidableEq

def checkRemindersNow (persistFail : String → Bool) (now : Nat)
    (rs : List Reminder) : CheckResult :=
  let o := checkLoop persistFail now rs
  ⟨o.stored, o.fired, !o.aborted && !o.fired.isEmpty, o.aborted,
    !o.aborted && !o.fired.isEmpty⟩

/-- A run in which every persist succeeds (the normal case). -/
def checkNoFail (now : Nat) (rs : List Reminder) : CheckResult :=
  checkRemindersNow (fun _ => false) now rs

/-- `scheduleNextCheck` (lines 7–17): the delay until the start of the next
minute, `(60 - seconds) * 1000 - milliseconds`, from a current time with
`seconds ≤ 59` and `milliseconds ≤ 999`. -/
def timeToNextMinute (seconds milliseconds : Nat) : Nat :=
  (60 - seconds) * 1000 - milliseconds

/-- `Partial<Omit<Reminder, "id">>` — the updatable fields; `none` means the
field is absent from the update object. -/
structure ReminderUpdates where
  medicineName : Option String := none
  dosage : Option String := none
  frequency : Option Nat := none
  nextDue : Option Nat := none
  duration : Option Nat := none
  notes : Option (Option String) := none
  createdAt : Option Nat := none
deriving Repr, DecidableEq

/-- `{ ...reminders[index], ...updates }` — the merge performed by
`updateReminder`; the spread cannot touch `id`. -/
def applyUpdates (r : Reminder) (u : ReminderUpdates) : Reminder :=
  { id := r.id,
    medicineName := u.medicineName.getD r.medicineName,
    dosage := u.dosage.getD r.dosage,
    frequency := u.frequency.getD r.frequency,
    nextDue := u.nextDue.getD r.nextDue,
    duration := u.duration.getD r.duration,
    notes := u.notes.getD r.notes,
    createdAt := u.createdAt.getD r.createdAt }

/-- `updateReminder` (`api.ts` lines 74–89): find the first record with the
id; if found, merge and save, resolving with the merged record; otherwise
reject with "Reminder not found" and leave storage untouched.  Returns the
operation result together with the stored collection afterwards. -/
def updateReminderOp (id : String) (u : ReminderUpdates) :
    List Reminder → Except String Reminder × List Reminder
  | [] => (.error "Reminder not found", [])
  | r :: rest =>
    if r.id == id then (.ok (applyUpdates r u), applyUpdates r u :: rest)
    else
      let o := updateReminderOp id u rest
      (o.1, r :: o.2)

/-- `deleteReminder` (`api.ts` lines 92–107): splice out the first record
with the id, or reject with "Reminder not found" leaving storage untouched. -/
def deleteReminderOp (id : String) :
    List Reminder → Except String Unit × List Reminder
  | [] => (.error "Reminder not found", [])
  | r :: rest =>
    if r.id == id then (.ok (), rest)
    else
      let o := deleteReminderOp id rest
      (o.1, r :: o.2)

/-! ## Theorems about the scheduler and the storage accessor -/

/-- What one loop iteration does to one reminder when persisting succeeds. -/
def stepReminder (now : Nat) (r : Reminder) : Reminder :=
  if dueAt now r then fireUpdate now r else r

/-- With no persist failures, the pass maps `stepReminder` over the
collection and fires exactly the due reminders, in order. -/
theorem checkLoop_noFail (now : Nat) (rs : List Reminder) :
    checkLoop (fun _ => false) now rs =
      ⟨rs.map (stepReminder now), (rs.filter (dueAt now)).map (fun r => r.id),
        false⟩ := by
  induction rs with
  | nil => rfl
  | cons r rest ih =>
    by_cases h : dueAt now r
    · simp [checkLoop, h, ih, stepReminder, List.filter_cons]
    · simp [checkLoop, h, ih, stepReminder, List.filter_cons]

/-- A concrete reminder that is due at time 100 (`nextDue = 50`). -/
def reminderDue : Reminder :=
  { id := "a", medicineName := "MedA", dosage := "1-0-1", frequency := 24,
    nextDue := 50, duration := 7, notes := none, createdAt := 0 }

/-- A second concrete reminder that is due at time 100 (`nextDue = 60`). -/
def reminderDueB : Reminder :=
  { id := "b", medicineName := "MedB", dosage := "1 tablet", frequency := 12,
    nextDue := 60, duration := 7, notes := none, createdAt := 0 }

/-- A concrete reminder that is not due at time 0 (`nextDue = 1000`). -/
def reminderNotDue : Reminder :=
  { id := "c", medicineName := "MedC", dosage := "10ml", frequency := 24,
    nextDue := 1000, duration := 7, notes := none, createdAt := 0 }

/-- A persist-failure predicate that fails exactly the id "a". -/
def failA : String → Bool := fun id => id == "a"

/-- C1 counterexample: a due-check pass that fires nothing (no reminder due,
no error) does not schedule any next check — `scheduleNextCheck` is guarded
by `remindersUpdated`, so the claimed "next due-check within at most 60
seconds after every run" fails on this run. -/
theorem c1_counterexample :
    (checkNoFail 0 [reminderNotDue]).errorCaught = false ∧
    (checkNoFail 0 [reminderNotDue]).fired = [] ∧
    (checkNoFail 0 [reminderNotDue]).schedulesNext = false := by decide

/-- C1 (amended): a run of `checkRemindersNow` schedules the next due-check
if and only if it fired (and persisted) at least one reminder and no error
was caught; when `scheduleNextCheck` does run, the delay it sets is between
1 ms and 60 s. -/
theorem c1_amended :
    (∀ (persistFail : String → Bool) (now : Nat) (rs : List Reminder),
      (checkRemindersNow persistFail now rs).schedulesNext = true ↔
        ((checkRemindersNow persistFail now rs).errorCaught = false ∧
          (checkRemindersNow persistFail now rs).fired ≠ [])) ∧
    (∀ seconds milliseconds : Nat, seconds ≤ 59 → milliseconds ≤ 999 →
      1 ≤ timeToNextMinute seconds milliseconds ∧
        timeToNextMinute seconds milliseconds ≤ 60000) := by
  constructor
  · intro persistFail now rs
    simp only [checkRemindersNow, Bool.and_eq_true, Bool.not_eq_true',
      List.isEmpty_iff]
    constructor
    · intro h
      exact ⟨h.1, by simpa using h.2⟩
    · intro h
      exact ⟨h.1, by simpa using h.2⟩
  · intro seconds milliseconds hs hms
    unfold timeToNextMinute
    omega

/-- Witness for C1 (amended) at a concrete run and a concrete clock value. -/
theorem c1_amended_witness :
    ((checkRemindersNow (fun _ => false) 100 [reminderDue]).schedulesNext = true ↔
      ((checkRemindersNow (fun _ => false) 100 [reminderDue]).errorCaught = false ∧
        (checkRemindersNow (fun _ => false) 100 [reminderDue]).fired ≠ [])) ∧
    (1 ≤ timeToNextMinute 30 500 ∧ timeToNextMinute 30 500 ≤ 60000) :=
  ⟨c1_amended.1 (fun _ => false) 100 [reminderDue],
    c1_amended.2 30 500 (by decide) (by decide)⟩

/-- C2: when the due-check finds a reminder with `nextDue ≤ now`, it fires
it and persists `nextDue := now + frequency` hours, computed from the firing
instant (not from the old `nextDue`). -/
theorem c2_fire_reschedules_from_now (now : Nat) (rs : List Reminder)
    (i : Nat) (r : Reminder) (hget : rs[i]? = some r)
    (hdue : dueAt now r = true) :
    (checkNoFail now rs).stored[i]? =
      some { r with nextDue := now + r.frequency * msPerHour } ∧
    r.id ∈ (checkNoFail now rs).fired := by
  have hcl := checkLoop_noFail now rs
  constructor
  · simp only [checkNoFail, checkRemindersNow, hcl]
    rw [List.getElem?_map, hget]
    simp [stepReminder, hdue, fireUpdate]
  · simp only [checkNoFail, checkRemindersNow, hcl]
    rw [List.mem_map]
    refine ⟨r, ?_, rfl⟩
    rw [List.mem_filter]
    exact ⟨List.getElem?_mem hget, hdue⟩

/-- Witness for C2: a reminder due at `now = 100` with frequency 24 h is
rescheduled to `100 + 24 * 3600000`. -/
theorem c2_fire_reschedules_from_now_witness :
    (checkNoFail 100 [reminderDue]).stored[0]? =
      some { reminderDue with nextDue := 100 + reminderDue.frequency * msPerHour } ∧
    reminderDue.id ∈ (checkNoFail 100 [reminderDue]).fired :=
  c2_fire_reschedules_from_now 100 [reminderDue] 0 reminderDue (by decide) (by decide)

/-- C3 counterexample: with two reminders both due, a persist failure on the
first aborts the whole pass — the second reminder is due and persistable yet
is neither fired nor updated in that pass, refuting "the loop continues
processing the remaining reminders". -/
theorem c3_counterexample :
    dueAt 100 reminderDueB = true ∧ failA reminderDueB.id = false ∧
    (checkRemindersNow failA 100 [reminderDue, reminderDueB]).fired = ["a"] ∧
    (checkRemindersNow failA 100 [reminderDue, reminderDueB]).stored =
      [reminderDue, reminderDueB] ∧
    (checkRemindersNow failA 100 [reminderDue, reminderDueB]).errorCaught = true := by
  decide

/-- C3 (amended): if persisting the recomputed due time fails for one
reminder, the scheduler does not crash — the rejection is caught, the check
returns `false` and schedules nothing — but the remaining reminders of that
pass are skipped, not processed: the stored tail is untouched and only the
reminders before the failure (plus the failing one's notification) fired. -/
theorem c3_amended (persistFail : String → Bool) (now : Nat)
    (pre : List Reminder) (r : Reminder) (post : List Reminder)
    (hpre : ∀ p ∈ pre, dueAt now p = true → persistFail p.id = false)
    (hdue : dueAt now r = true) (hfail : persistFail r.id = true) :
    checkRemindersNow persistFail now (pre ++ r :: post) =
      ⟨pre.map (stepReminder now) ++ r :: post,
        (pre.filter (dueAt now)).map (fun p => p.id) ++ [r.id],
        false, true, false⟩ := by
  have hloop : ∀ (pre' : List Reminder),
      (∀ p ∈ pre', dueAt now p = true → persistFail p.id = false) →
      checkLoop persistFail now (pre' ++ r :: post) =
        ⟨pre'.map (stepReminder now) ++ r :: post,
          (pre'.filter (dueAt now)).map (fun p => p.id) ++ [r.id], true⟩ := by
    intro pre'
    induction pre' with
    | nil =>
      intro _
      simp [checkLoop, hdue, hfail]
    | cons p rest ih =>
      intro hp
      have hrest := ih (fun q hq hd => hp q (by simp [hq]) hd)
      by_cases hdp : dueAt now p
      · have hfp : persistFail p.id = false := hp p (by simp) hdp
        simp [checkLoop, hdp, hfp, hrest, stepReminder, List.filter_cons]
      · simp [checkLoop, hdp, hrest, stepReminder, List.filter_cons]
  simp [checkRemindersNow, hloop pre hpre]

/-- Witness for C3 (amended) at the concrete two-reminder run. -/
theorem c3_amended_witness :
    checkRemindersNow failA 100 ([] ++ reminderDue :: [reminderDueB]) =
      ⟨[].map (stepReminder 100) ++ reminderDue :: [reminderDueB],
        (([] : List Reminder).filter (dueAt 100)).map (fun p => p.id) ++
          [reminderDue.id], false, true, false⟩ :=
  c3_amended failA 100 [] reminderDue [reminderDueB] (by simp) (by decide)
    (by decide)

/-- C7: after a due-check at time `now`, every reminder with frequency at
least one hour has a strictly future `nextDue`; hence a second due-check at
the same time fires nothing and changes nothing. -/
theorem c7_idempotent (now : Nat) (rs : List Reminder) :
    (∀ (i : Nat) (r : Reminder), rs[i]? = some r → 1 ≤ r.frequency →
      ∃ r', (checkNoFail now rs).stored[i]? = some r' ∧ now < r'.nextDue) ∧
    ((∀ r ∈ rs, 1 ≤ r.frequency) →
      (checkNoFail now (checkNoFail now rs).stored).fired = [] ∧
      (checkNoFail now (checkNoFail now rs).stored).stored =
        (checkNoFail now rs).stored) := by
  have hstep : ∀ r : Reminder, 1 ≤ r.frequency → now < (stepReminder now r).nextDue := by
    intro r hf
    rw [stepReminder]
    by_cases h : dueAt now r
    · rw [if_pos h]
      have : 1 * msPerHour ≤ r.frequency * msPerHour :=
        Nat.mul_le_mul_right _ hf
      simp only [fireUpdate]
      unfold msPerHour at *
      omega
    · rw [if_neg h]
      simp only [dueAt, decide_eq_true_eq] at h
      omega
  have hstored : (checkNoFail now rs).stored = rs.map (stepReminder now) := by
    simp [checkNoFail, checkRemindersNow, checkLoop_noFail]
  constructor
  · intro i r hget hf
    refine ⟨stepReminder now r, ?_, hstep r hf⟩
    rw [hstored, List.getElem?_map, hget]
    rfl
  · intro hall
    have hfut : ∀ r' ∈ (checkNoFail now rs).stored, now < r'.nextDue := by
      intro r' hr'
      rw [hstored, List.mem_map] at hr'
      obtain ⟨r, hr, hrr⟩ := hr'
      rw [← hrr]
      exact hstep r (hall r hr)
    have hnone : (checkNoFail now rs).stored.filter (dueAt now) = [] := by
      rw [List.filter_eq_nil_iff]
      intro r' hr'
      have := hfut r' hr'
      simp only [dueAt, decide_eq_true_eq]
      omega
    have hid : ((checkNoFail now rs).stored).map (stepReminder now) =
        (checkNoFail now rs).stored := by
      have h1 : ∀ r' ∈ (checkNoFail now rs).stored, stepReminder now r' = r' := by
        intro r' hr'
        rw [stepReminder, if_neg]
        intro hd
        have := hfut r' hr'
        simp only [dueAt, decide_eq_true_eq] at hd
        omega
      calc ((checkNoFail now rs).stored).map (stepReminder now)
          = ((checkNoFail now rs).stored).map (fun a => a) := List.map_congr_left h1
        _ = (checkNoFail now rs).stored := List.map_id' _
    have hfired2 : (checkNoFail now (checkNoFail now rs).stored).fired =
        (((checkNoFail now rs).stored).filter (dueAt now)).map (fun r => r.id) := by
      conv_lhs => rw [checkNoFail, checkRemindersNow, checkLoop_noFail]
    have hstored2 : (checkNoFail now (checkNoFail now rs).stored).stored =
        ((checkNoFail now rs).stored).map (stepReminder now) := by
      conv_lhs => rw [checkNoFail, checkRemindersNow, checkLoop_noFail]
    constructor
    · rw [hfired2, hnone]
      rfl
    · rw [hstored2, hid]

/-- Witness for C7 at a concrete due reminder. -/
theorem c7_idempotent_witness :
    (∃ r', (checkNoFail 100 [reminderDue]).stored[0]? = some r' ∧
      100 < r'.nextDue) ∧
    (checkNoFail 100 (checkNoFail 100 [reminderDue]).stored).fired = [] ∧
    (checkNoFail 100 (checkNoFail 100 [reminderDue]).stored).stored =
      (checkNoFail 100 [reminderDue]).stored :=
  ⟨(c7_idempotent 100 [reminderDue]).1 0 reminderDue (by decide) (by decide),
    (c7_idempotent 100 [reminderDue]).2 (by decide)⟩

/-- C9: updating or deleting an id absent from the stored collection fails
with "Reminder not found" and leaves the stored collection unchanged. -/
theorem c9_not_found (id : String) (u : ReminderUpdates) (rs : List Reminder)
    (h : ∀ r ∈ rs, r.id ≠ id) :
    updateReminderOp id u rs = (.error "Reminder not found", rs) ∧
    deleteReminderOp id rs = (.error "Reminder not found", rs) := by
  induction rs with
  | nil => exact ⟨rfl, rfl⟩
  | cons r rest ih =>
    have hr : (r.id == id) = false := beq_eq_false_iff_ne.mpr (h r (by simp))
    have hrest := ih (fun q hq => h q (by simp [hq]))
    constructor
    · simp [updateReminderOp, hr, hrest.1]
    · simp [deleteReminderOp, hr, hrest.2]

/-- Witness for C9 at a concrete one-element collection. -/
theorem c9_not_found_witness :
    updateReminderOp "zz" {} [reminderDue] =
      (.error "Reminder not found", [reminderDue]) ∧
    deleteReminderOp "zz" [reminderDue] =
      (.error "Reminder not found", [reminderDue]) :=
  c9_not_found "zz" {} [reminderDue] (by decide)

/-- C10: updating an id that is present succeeds, replaces exactly the first
record with that id by its merge with the updates — keeping its `id` and
every field the update does not name — and leaves every other record, and
the order, unchanged. -/
theorem c10_update_frame (id : String) (u : ReminderUpdates)
    (pre : List Reminder) (r : Reminder) (post : List Reminder)
    (hpre : ∀ p ∈ pre, p.id ≠ id) (hr : r.id = id) :
    updateReminderOp id u (pre ++ r :: post) =
      (.ok (applyUpdates r u), pre ++ applyUpdates r u :: post) ∧
    (applyUpdates r u).id = r.id ∧
    (u.medicineName = none → (applyUpdates r u).medicineName = r.medicineName) ∧
    (u.dosage = none → (applyUpdates r u).dosage = r.dosage) ∧
    (u.frequency = none → (applyUpdates r u).frequency = r.frequency) ∧
    (u.nextDue = none → (applyUpdates r u).nextDue = r.nextDue) ∧
    (u.duration = none → (applyUpdates r u).duration = r.duration) ∧
    (u.notes = none → (applyUpdates r u).notes = r.notes) ∧
    (u.createdAt = none → (applyUpdates r u).createdAt = r.createdAt) := by
  refine ⟨?_, rfl, ?_, ?_, ?_, ?_, ?_, ?_, ?_⟩
  · induction pre with
    | nil =>
      have : (r.id == id) = true := beq_iff_eq.mpr hr
      simp [updateReminderOp, this]
    | cons p rest ih =>
      have hp : (p.id == id) = false :=
        beq_eq_false_iff_ne.mpr (hpre p (by simp))
      have hrest := ih (fun q hq => hpre q (by simp [hq]))
      simp [updateReminderOp, hp, hrest]
  all_goals intro h
  all_goals simp [applyUpdates, h]

/-- Witness for C10: updating `nextDue` of the second record only. -/
theorem c10_update_frame_witness :
    updateReminderOp "b" { nextDue := some 777 }
        ([reminderDue] ++ reminderDueB :: []) =
      (.ok (applyUpdates reminderDueB { nextDue := some 777 }),
        [reminderDue] ++ applyUpdates reminderDueB { nextDue := some 777 } :: []) ∧
    (applyUpdates reminderDueB { nextDue := some 777 }).id = reminderDueB.id ∧
    (({ nextDue := some 777 } : ReminderUpdates).medicineName = none →
      (applyUpdates reminderDueB { nextDue := some 777 }).medicineName =
        reminderDueB.medicineName) :=
  ⟨(c10_update_frame "b" { nextDue := some 777 } [reminderDue] reminderDueB []
      (by decide) (by decide)).1,
    (c10_update_frame "b" { nextDue := some 777 } [reminderDue] reminderDueB []
      (by decide) (by decide)).2.1,
    (c10_update_frame "b" { nextDue := some 777 } [reminderDue] reminderDueB []
      (by decide) (by decide)).2.2.1⟩

/-! ## Theorems about the parser -/

theorem findSome?_single {α β : Type} (f : α → Option β) (a : α) :
    [a].findSome? f = f a := by
  rw [List.findSome?_cons]
  cases f a <;> simp

theorem toList_append (a b : String) : (a ++ b).toList = a.toList ++ b.toList := rfl

theorem toList_mk (l : List Char) : (String.mk l).toList = l := rfl

/-- The tail `\s+hours` of the `every N hours` regex on the literal
`" hours"`, under any capture state. -/
theorem tail_ws_hours (caps : Caps) :
    matchItems [.rep jsWs true false none, .lit "hours" false] false
      (' ':: 'h':: 'o':: 'u':: 'r':: 's'::[]) caps = some ([], caps) := rfl

/-- Matching `/every\s+(\d+)\s+hours/` on `"every " ++ digits ++ " hours"`
succeeds at position 0, capturing exactly the digit run. -/
theorem everyN_search (ds : List Char) (hne : ds ≠ [])
    (hds : ∀ c ∈ ds, isDig c = true) :
    searchFrom everyNHoursRE true
      (('e':: 'v':: 'e':: 'r':: 'y':: ' '::[]) ++ (ds ++ (' ':: 'h':: 'o':: 'u':: 'r':: 's'::[]))) =
      some ([], [(1, ds)]) := by
  obtain ⟨d, ds', rfl⟩ : ∃ d ds', ds = d :: ds' := by
    cases ds with
    | nil => exact absurd rfl hne
    | cons d ds' => exact ⟨d, ds', rfl⟩
  apply searchFrom_of_searchAt
  unfold everyNHoursRE
  rw [searchAt_single, matchItems_cons]
  rw [show candidatesFor (.lit "every" false) true
      (('e':: 'v':: 'e':: 'r':: 'y':: ' '::[]) ++ ((d :: ds') ++ (' ':: 'h':: 'o':: 'u':: 'r':: 's'::[]))) [] =
      [(' ' :: ((d :: ds') ++ (' ':: 'h':: 'o':: 'u':: 'r':: 's'::[])), [], false)] from rfl]
  rw [findSome?_single]
  rw [show (' ' :: ((d :: ds') ++ (' ':: 'h':: 'o':: 'u':: 'r':: 's'::[]))) =
      ([' '] ++ ((d :: ds') ++ (' ':: 'h':: 'o':: 'u':: 'r':: 's'::[]))) from rfl]
  apply rep_step_pos (by simp) (by intro c hc; simp at hc; rw [hc]; rfl)
  · intro c t ht
    have : c = d := (List.cons.inj ht).1.symm
    rw [this]
    exact dig_not_ws (hds d (by simp))
  · apply rep_step_pos (by simp) hds
    · intro c t ht
      have : c = ' ' := (List.cons.inj ht).1.symm
      rw [this]
      rfl
    · exact tail_ws_hours _

/-- C4: `getFrequencyHours` maps the label `every N hours` to `N` for every
decimal numeral `N`, `twice daily` to 12, `thrice daily` to 8, and any other
label — any string without the `every N hours` pattern whose lowercasing is
neither `twice daily` nor `thrice daily`, in particular `once daily` — to 24. -/
theorem c4_frequency_to_hours :
    (∀ n : Nat, getFrequencyHours ("every " ++ natRepr n ++ " hours") = n) ∧
    getFrequencyHours "twice daily" = 12 ∧
    getFrequencyHours "thrice daily" = 8 ∧
    getFrequencyHours "once daily" = 24 ∧
    (∀ s : String, jsSearch everyNHoursRE s = none →
      jsLower s ≠ "twice daily" → jsLower s ≠ "thrice daily" →
      getFrequencyHours s = 24) := by
  refine ⟨?_, by decide, by decide, by decide, ?_⟩
  · intro n
    have hsplit : ("every " ++ natRepr n ++ " hours").toList =
        ('e':: 'v':: 'e':: 'r':: 'y':: ' '::[]) ++
          (natReprL n ++ (' ':: 'h':: 'o':: 'u':: 'r':: 's'::[])) := by
      rw [toList_append, toList_append]
      rw [show "every ".toList = ('e':: 'v':: 'e':: 'r':: 'y':: ' '::[]) from rfl,
        show " hours".toList = (' ':: 'h':: 'o':: 'u':: 'r':: 's'::[]) from rfl,
        show (natRepr n).toList = natReprL n from rfl, List.append_assoc]
    have hsearch := everyN_search (natReprL n) (natReprL_ne_nil n) (natReprL_all_dig n)
    unfold getFrequencyHours jsSearch
    rw [hsplit, hsearch]
    exact natReprL_parse n
  · intro s hnone h2 h3
    unfold getFrequencyHours
    rw [hnone]
    have e2 : (jsLower s == "twice daily") = false := beq_eq_false_iff_ne.mpr h2
    have e3 : (jsLower s == "thrice daily") = false := beq_eq_false_iff_ne.mpr h3
    simp [e2, e3]

/-- Witness for C4 at `N = 6` and at the label `weekly`. -/
theorem c4_frequency_to_hours_witness :
    getFrequencyHours ("every " ++ natRepr 6 ++ " hours") = 6 ∧
    getFrequencyHours "twice daily" = 12 ∧
    getFrequencyHours "weekly" = 24 :=
  ⟨c4_frequency_to_hours.1 6, c4_frequency_to_hours.2.1,
    c4_frequency_to_hours.2.2.2.2 "weekly" (by decide) (by decide) (by decide)⟩

/-! ### Helpers for the duration claims -/

theorem containsList_cons (c : Char) (t pat : List Char) :
    containsList (c :: t) pat = (beginsWith pat (c :: t) || containsList t pat) := by
  rw [containsList]
  cases beginsWith pat (c :: t) <;> simp

theorem containsList_nil (pat : List Char) :
    containsList [] pat = beginsWith pat [] := by
  rw [containsList]
  cases h : beginsWith pat [] <;> simp

theorem containsList_append_right (a w pat : List Char)
    (h : containsList w pat = true) : containsList (a ++ w) pat = true := by
  induction a with
  | nil => exact h
  | cons c t ih => rw [List.cons_append, containsList_cons, ih, Bool.or_true]

theorem containsList_head_notMem (hay : List Char) (c0 : Char) (ps : List Char)
    (h : c0 ∉ hay) : containsList hay (c0 :: ps) = false := by
  induction hay with
  | nil => rw [containsList_nil]; rfl
  | cons c t ih =>
    rw [containsList_cons]
    have hb : beginsWith (c0 :: ps) (c :: t) = false := by
      rw [show beginsWith (c0 :: ps) (c :: t) = ((c0 == c) && beginsWith ps t) from rfl]
      rw [beq_eq_false_iff_ne.mpr (fun he => h (by rw [he]; exact List.mem_cons_self c t))]
      rfl
    rw [hb, ih (fun hm => h (List.mem_cons_of_mem _ hm))]
    rfl

theorem mapLower_digits_app (ds w : List Char) (hds : ∀ c ∈ ds, isDig c = true) :
    (ds ++ w).map charLower = ds ++ w.map charLower := by
  rw [List.map_append]
  congr 1
  calc ds.map charLower
      = ds.map (fun a => a) :=
        List.map_congr_left (fun c hc => charLower_digit (hds c hc))
    _ = ds := List.map_id' _

/-- A digit-headed string never matches the `\s*`-then-letter-alternatives
tail of the `(\d+)\s*word` regexes. -/
theorem wsAlts_digit_none (ts : List String)
    (hts : ∀ t ∈ ts, ∃ c0 rest, t.toList = c0 :: rest ∧ 58 ≤ (charLower c0).toNat) :
    ∀ (c : Char) (tl : List Char) (caps : Caps), isDig c = true →
      matchItems [.rep jsWs false false none, .alts ts true] false (c :: tl) caps = none := by
  intro c tl caps hc
  apply matchItems_none_caps
  rw [matchItems_cons]
  have htk : (c :: tl).takeWhile jsWs = [] := by
    simp [List.takeWhile_cons, dig_not_ws hc]
  have hcand : candidatesFor (.rep jsWs false false none) false (c :: tl) [] =
      [(c :: tl, [], false)] := by
    simp [candidatesFor, htk, List.range'_one, capWrite]
  rw [hcand, findSome?_single, matchItems_cons]
  have halts : candidatesFor (.alts ts true) false (c :: tl) [] = [] := by
    simp only [candidatesFor]
    rw [List.filterMap_eq_nil_iff]
    intro t ht
    obtain ⟨c0, rest, htl, hge⟩ := hts t ht
    rw [htl]
    rw [show stripLit true (c0 :: rest) (c :: tl) =
        (if charCI true c0 c = true then stripLit true rest tl else none) from rfl]
    rw [charCI_notDigit hge hc]
    simp
  rw [halts]
  rfl

/-- The tail `\s*weeks?` on the literal `" weeks"`, under any captures. -/
theorem tail_ws_weeks (caps : Caps) :
    matchItems [.rep jsWs false false none, .alts ["weeks", "week"] true] false
      (' ':: 'w':: 'e':: 'e':: 'k':: 's'::[]) caps = some ([], caps) := rfl

/-- `/(\d+)\s*weeks?/i` on `digits ++ " weeks"` matches at position 0 and
captures the digit run. -/
theorem weeksRE_search (ds : List Char) (hne : ds ≠ [])
    (hds : ∀ c ∈ ds, isDig c = true) :
    searchFrom format1WeeksRE true (ds ++ (' ':: 'w':: 'e':: 'e':: 'k':: 's'::[])) =
      some ([], [(1, ds)]) := by
  apply searchFrom_of_searchAt
  unfold format1WeeksRE
  rw [searchAt_single]
  apply rep_step_pos hne hds
  · intro c t ht
    have hce : c = ' ' := (List.cons.inj ht).1.symm
    rw [hce]
    rfl
  · exact tail_ws_weeks _

/-- `/(\d+)\s*Days?/i` never matches `digits ++ w` when `w` is digit-free
and itself match-free. -/
theorem daysRE_none (w : List Char)
    (hw0 : ∀ c t, w = c :: t → isDig c = false)
    (hRw : matchItems [.rep jsWs false false none, .alts ["Days", "Day"] true]
      false w [] = none)
    (hwT : searchFrom format1DaysRE true w = none)
    (hwF : searchFrom format1DaysRE false w = none)
    (ds : List Char) (hds : ∀ c ∈ ds, isDig c = true) :
    searchFrom format1DaysRE true (ds ++ w) = none := by
  have hts : ∀ t ∈ (["Days", "Day"] : List String),
      ∃ c0 rest, t.toList = c0 :: rest ∧ 58 ≤ (charLower c0).toNat := by
    intro t ht
    rcases List.mem_cons.mp ht with rfl | ht2
    · exact ⟨'D', ['a', 'y', 's'], rfl, by decide⟩
    · rcases List.mem_cons.mp ht2 with rfl | ht3
      · exact ⟨'D', ['a', 'y'], rfl, by decide⟩
      · simp at ht3
  exact searchFrom_digApp_none (wsAlts_digit_none _ hts) hRw hwT hwF hw0 ds true hds

/-- C5 counterexample: the duration text `"2 months"` is parsed to 30 days
by both format paths, not to `30 × 2`: the month multiplier is ignored. -/
theorem c5_counterexample :
    format1ParseDuration "2 months" = 30 ∧
    format2ParseDuration "2 months" = 30 ∧
    (30 : Nat) ≠ 30 * 2 := by decide

/-- C5 (amended): for every duration text `"<n> weeks"` both format paths
derive `7 × n`; for `"<n> months"` and for bare `"month"` they derive 30,
ignoring the number (i.e. as if `n` were always 1). -/
theorem c5_amended : ∀ n : Nat,
    format1ParseDuration (natRepr n ++ " weeks") = 7 * n ∧
    format2ParseDuration (natRepr n ++ " weeks") = 7 * n ∧
    format1ParseDuration (natRepr n ++ " months") = 30 ∧
    format2ParseDuration (natRepr n ++ " months") = 30 ∧
    format1ParseDuration "month" = 30 ∧
    format2ParseDuration "month" = 30 := by
  intro n
  have hne := natReprL_ne_nil n
  have hds := natReprL_all_dig n
  have hwl : (natRepr n ++ " weeks").toList =
      natReprL n ++ (' ':: 'w':: 'e':: 'e':: 'k':: 's'::[]) := rfl
  have hml : (natRepr n ++ " months").toList =
      natReprL n ++ (' ':: 'm':: 'o':: 'n':: 't':: 'h':: 's'::[]) := rfl
  have hdaysW : jsSearch format1DaysRE (natRepr n ++ " weeks") = none := by
    unfold jsSearch
    rw [hwl, daysRE_none _ (by intro c t ht; rw [(List.cons.inj ht).1.symm]; rfl)
      (by decide) (by decide) (by decide) _ hds]
    rfl
  have hdaysM : jsSearch format1DaysRE (natRepr n ++ " months") = none := by
    unfold jsSearch
    rw [hml, daysRE_none _ (by intro c t ht; rw [(List.cons.inj ht).1.symm]; rfl)
      (by decide) (by decide) (by decide) _ hds]
    rfl
  have hweeksW : jsSearch format1WeeksRE (natRepr n ++ " weeks") =
      some [(1, natReprL n)] := by
    unfold jsSearch
    rw [hwl, weeksRE_search _ hne hds]
    rfl
  have hmonthW : containsSub (jsLower (natRepr n ++ " weeks")) "month" = false := by
    unfold containsSub jsLower
    rw [toList_mk, hwl, mapLower_digits_app _ _ hds]
    rw [show (' ':: 'w':: 'e':: 'e':: 'k':: 's'::[]).map charLower =
        (' ':: 'w':: 'e':: 'e':: 'k':: 's'::[]) from rfl]
    apply containsList_head_notMem
    intro hmem
    rcases List.mem_append.mp hmem with h | h
    · exact absurd (hds 'm' h) (by decide)
    · exact absurd h (by decide)
  have hweekW : containsSub (jsLower (natRepr n ++ " weeks")) "week" = true := by
    unfold containsSub jsLower
    rw [toList_mk, hwl, mapLower_digits_app _ _ hds]
    rw [show (' ':: 'w':: 'e':: 'e':: 'k':: 's'::[]).map charLower =
        (' ':: 'w':: 'e':: 'e':: 'k':: 's'::[]) from rfl]
    exact containsList_append_right _ _ _ (by decide)
  have hmonthM : containsSub (jsLower (natRepr n ++ " months")) "month" = true := by
    unfold containsSub jsLower
    rw [toList_mk, hml, mapLower_digits_app _ _ hds]
    rw [show (' ':: 'm':: 'o':: 'n':: 't':: 'h':: 's'::[]).map charLower =
        (' ':: 'm':: 'o':: 'n':: 't':: 'h':: 's'::[]) from rfl]
    exact containsList_append_right _ _ _ (by decide)
  have hF2 : format2WeeksRE = format1WeeksRE := rfl
  refine ⟨?_, ?_, ?_, ?_, by decide, by decide⟩
  · simp only [format1ParseDuration, hdaysW, hmonthW, hweeksW]
    rw [show capGetD 1 [(1, natReprL n)] = natReprL n from rfl, natReprL_parse]
    simp [Nat.mul_comm]
  · simp only [format2ParseDuration, hmonthW, hweekW, hF2, hweeksW]
    rw [show capGetD 1 [(1, natReprL n)] = natReprL n from rfl, natReprL_parse]
    simp [Nat.mul_comm]
  · simp only [format1ParseDuration, hdaysM, hmonthM]
    simp
  · simp only [format2ParseDuration, hmonthM]
    simp

/-- C6 counterexample: the claim as stated is universal over the parser, but
the table strategy never inspects `D-D-D`.  On the prescription line
`"TAB. AMOX | 1-0-1 | 5 days"` the parser takes the table branch and derives
the label `once daily` for the dosage `"1-0-1"`, which contains the `D-D-D`
pattern with exactly two nonzero digits — not `twice daily`. -/
theorem c6_counterexample :
    findDDD "1-0-1" = some (1, 0, 1) ∧
    extractMedicineDetails "TAB. AMOX | 1-0-1 | 5 days" =
      [{ name := "AMOX", dosage := "1-0-1", frequency := "once daily",
         duration := 5, notes := "" }] ∧
    "once daily" ≠ "twice daily" := by decide

/-- C6 (amended): the nonzero-count rule for the `D-D-D` dosage pattern
holds for the parser's two card-format strategies — for every dosage string
in which the parser finds `D-D-D`, both `format1Frequency` and
`format2Frequency` derive `thrice daily` when all three numbers are nonzero,
`twice daily` when exactly two are, and `once daily` when exactly one is.
The table strategy (and the alternate file version's
`determineDosageFrequency`) does not inspect `D-D-D` and falls back to its
keyword rules, as the counterexample shows. -/
theorem c6_ddd_frequency (s : String) (a b c : Nat)
    (h : findDDD s = some (a, b, c)) :
    ((a ≠ 0 ∧ b ≠ 0 ∧ c ≠ 0) →
      format1Frequency s = "thrice daily" ∧ format2Frequency s = "thrice daily") ∧
    (((a = 0 ∧ b ≠ 0 ∧ c ≠ 0) ∨ (a ≠ 0 ∧ b = 0 ∧ c ≠ 0) ∨ (a ≠ 0 ∧ b ≠ 0 ∧ c = 0)) →
      format1Frequency s = "twice daily" ∧ format2Frequency s = "twice daily") ∧
    (((a ≠ 0 ∧ b = 0 ∧ c = 0) ∨ (a = 0 ∧ b ≠ 0 ∧ c = 0) ∨ (a = 0 ∧ b = 0 ∧ c ≠ 0)) →
      format1Frequency s = "once daily" ∧ format2Frequency s = "once daily") := by
  unfold format1Frequency format2Frequency
  rw [h]
  refine ⟨?_, ?_, ?_⟩
  · rintro ⟨ha, hb, hc⟩
    have ea : decide (0 < a) = true := decide_eq_true (Nat.pos_of_ne_zero ha)
    have eb : decide (0 < b) = true := decide_eq_true (Nat.pos_of_ne_zero hb)
    have ec : decide (0 < c) = true := decide_eq_true (Nat.pos_of_ne_zero hc)
    constructor <;> simp [ea, eb, ec]
  · rintro (⟨ha, hb, hc⟩ | ⟨ha, hb, hc⟩ | ⟨ha, hb, hc⟩)
    all_goals first
      | · have ea : decide (0 < a) = false := by subst ha; decide
          have eb : decide (0 < b) = true := decide_eq_true (Nat.pos_of_ne_zero hb)
          have ec : decide (0 < c) = true := decide_eq_true (Nat.pos_of_ne_zero hc)
          constructor <;> simp [ea, eb, ec]
      | · have ea : decide (0 < a) = true := decide_eq_true (Nat.pos_of_ne_zero ha)
          have eb : decide (0 < b) = false := by subst hb; decide
          have ec : decide (0 < c) = true := decide_eq_true (Nat.pos_of_ne_zero hc)
          constructor <;> simp [ea, eb, ec]
      | · have ea : decide (0 < a) = true := decide_eq_true (Nat.pos_of_ne_zero ha)
          have eb : decide (0 < b) = true := decide_eq_true (Nat.pos_of_ne_zero hb)
          have ec : decide (0 < c) = false := by subst hc; decide
          constructor <;> simp [ea, eb, ec]
  · rintro (⟨ha, hb, hc⟩ | ⟨ha, hb, hc⟩ | ⟨ha, hb, hc⟩)
    all_goals first
      | · have ea : decide (0 < a) = true := decide_eq_true (Nat.pos_of_ne_zero ha)
          have eb : decide (0 < b) = false := by subst hb; decide
          have ec : decide (0 < c) = false := by subst hc; decide
          constructor <;> simp [ea, eb, ec]
      | · have ea : decide (0 < a) = false := by subst ha; decide
          have eb : decide (0 < b) = true := decide_eq_true (Nat.pos_of_ne_zero hb)
          have ec : decide (0 < c) = false := by subst hc; decide
          constructor <;> simp [ea, eb, ec]
      | · have ea : decide (0 < a) = false := by subst ha; decide
          have eb : decide (0 < b) = false := by subst hb; decide
          have ec : decide (0 < c) = true := decide_eq_true (Nat.pos_of_ne_zero hc)
          constructor <;> simp [ea, eb, ec]

/-- Witness for C6 at the dosage `"1-0-1 tablet"` (two nonzero numbers). -/
theorem c6_ddd_frequency_witness :
    findDDD "1-0-1 tablet" = some (1, 0, 1) ∧
    format1Frequency "1-0-1 tablet" = "twice daily" ∧
    format2Frequency "1-0-1 tablet" = "twice daily" :=
  ⟨by decide,
    (c6_ddd_frequency "1-0-1 tablet" 1 0 1 (by decide)).2.1
      (Or.inr (Or.inl ⟨by decide, rfl, by decide⟩))⟩

/-! ### Helpers for the parser-totality claim -/

/-- If every variant of a pattern starts with a literal whose first
character can only match one fixed character `ch`, the pattern cannot match
anywhere in a string not containing `ch`. -/
theorem searchFrom_lit_head_none (vars : List (List RItem)) (t0 : String)
    (ci : Bool) (ch : Char) (c0 : Char) (t0' : List Char)
    (hv : ∀ v ∈ vars, ∃ rest, v = .lit t0 ci :: rest)
    (ht0 : t0.toList = c0 :: t0')
    (hforce : ∀ d, charCI ci c0 d = true → d = ch) :
    ∀ (s : List Char) (st : Bool), ch ∉ s → searchFrom vars st s = none := by
  intro s
  induction s with
  | nil =>
    intro st _
    show searchAt vars st [] = none
    apply List.findSome?_eq_none_iff.mpr
    intro v hvm
    obtain ⟨rest, rfl⟩ := hv v hvm
    rw [matchItems_cons]
    have hstrip : stripLit ci t0.toList [] = none := by
      rw [ht0]
      rfl
    rw [show candidatesFor (.lit t0 ci) st [] [] =
        (match stripLit ci t0.toList [] with
          | some s' => [(s', ([] : Caps), st && t0.toList.isEmpty)]
          | none => []) from rfl, hstrip]
    rfl
  | cons c cs ih =>
    intro st hmem
    rw [searchFrom_cons]
    have hat : searchAt vars st (c :: cs) = none := by
      apply List.findSome?_eq_none_iff.mpr
      intro v hvm
      obtain ⟨rest, rfl⟩ := hv v hvm
      rw [matchItems_cons]
      have hcc : charCI ci c0 c = false := by
        cases hcc : charCI ci c0 c
        · rfl
        · exact absurd (hforce c hcc ▸ List.mem_cons_self c cs) hmem
      have hstrip : stripLit ci t0.toList (c :: cs) = none := by
        rw [ht0]
        rw [show stripLit ci (c0 :: t0') (c :: cs) =
            (if charCI ci c0 c = true then stripLit ci t0' cs else none) from rfl]
        rw [hcc]
        rfl
      rw [show candidatesFor (.lit t0 ci) st (c :: cs) [] =
          (match stripLit ci t0.toList (c :: cs) with
            | some s' => [(s', ([] : Caps), st && t0.toList.isEmpty)]
            | none => []) from rfl, hstrip]
      rfl
    rw [hat]
    exact ih false (fun hm => hmem (List.mem_cons_of_mem _ hm))

theorem searchAll_none {vars : List (List RItem)} {s : String}
    (h : searchFrom vars true s.toList = none) : searchAll vars s = [] := by
  rw [searchAll]
  rw [show searchAllF (s.toList.length + 1) vars true s.toList =
      (match searchFrom vars true s.toList with
        | none => []
        | some (rem, caps) =>
          caps :: searchAllF s.toList.length vars false rem) from rfl, h]

/-- Every character of a `split` piece is a character of the original. -/
theorem splitChars_subset (p : Char → Bool) :
    ∀ (cs piece : List Char), piece ∈ splitChars p cs → ∀ c ∈ piece, c ∈ cs := by
  intro cs
  induction cs with
  | nil =>
    intro piece hp c hc
    simp only [splitChars, List.mem_singleton] at hp
    subst hp
    simp at hc
  | cons x xs ih =>
    intro piece hp c hc
    rw [splitChars] at hp
    by_cases hx : p x
    · rw [if_pos hx] at hp
      rcases List.mem_cons.mp hp with rfl | hp2
      · simp at hc
      · exact List.mem_cons_of_mem _ (ih piece hp2 c hc)
    · rw [if_neg hx] at hp
      revert hp
      cases hsp : splitChars p xs with
      | nil =>
        intro hp
        rw [List.mem_singleton] at hp
        subst hp
        rw [List.mem_singleton] at hc
        subst hc
        exact List.mem_cons_self _ _
      | cons hpiece t =>
        intro hp
        rcases List.mem_cons.mp hp with rfl | hp2
        · rcases List.mem_cons.mp hc with rfl | hc2
          · exact List.mem_cons_self _ _
          · refine List.mem_cons_of_mem _ (ih hpiece ?_ c hc2)
            rw [hsp]
            exact List.mem_cons_self _ _
        · refine List.mem_cons_of_mem _ (ih piece ?_ c hc)
          rw [hsp]
          exact List.mem_cons_of_mem _ hp2

/-- A line with no `|` produces no table entry. -/
theorem tableLine_no_bar {line : String}
    (h : containsSub line "|" = false) : tableLine line = none := by
  unfold tableLine
  split_ifs with h1 h2 h3
  · rfl
  · rfl
  · rw [h] at h3
    exact absurd h3 (by simp)
  · rfl

/-- C8: the parser is a total function (its embedding returns a plain list,
with no error path); the empty string parses to the empty list, and so does
every input without the characters the three strategies key on (`*` for the
card formats, `|` for the table rows) — absence of parseable content yields
an empty sequence rather than a failure. -/
theorem c8_parser_never_fails :
    extractMedicineDetails "" = [] ∧
    ∀ text : String, '*' ∉ text.toList → '|' ∉ text.toList →
      extractMedicineDetails text = [] := by
  refine ⟨by decide, ?_⟩
  intro text hstar hbar
  have hforce : ∀ d, charCI true '*' d = true → d = '*' := by
    intro d hd
    have hb : (charLower '*' == charLower d) = true := hd
    have he : charLower d = '*' := (beq_iff_eq.mp hb).symm
    exact eq_of_charLower_eq (Or.inl (by decide)) he
  have hf1 : searchFrom format1RegexVars true text.toList = none := by
    apply searchFrom_lit_head_none format1RegexVars "*" true '*' '*' [] ?_ rfl
      hforce text.toList true hstar
    intro v hv
    simp only [format1RegexVars, List.mem_singleton] at hv
    exact ⟨_, hv⟩
  have hf2 : searchFrom format2RegexVars true text.toList = none := by
    apply searchFrom_lit_head_none format2RegexVars "**" true '*' '*' ['*'] ?_ rfl
      hforce text.toList true hstar
    intro v hv
    simp only [format2RegexVars, List.mem_cons, List.mem_singleton,
      List.not_mem_nil, or_false] at hv
    rcases hv with rfl | rfl
    · exact ⟨_, rfl⟩
    · exact ⟨_, rfl⟩
  have hm1 : searchAll format1RegexVars text = [] := searchAll_none hf1
  have hm2 : searchAll format2RegexVars text = [] := searchAll_none hf2
  have htab : ∀ line ∈ (splitChars (fun c => c == '\n') text.toList).map String.mk,
      tableLine line = none := by
    intro line hline
    rw [List.mem_map] at hline
    obtain ⟨piece, hpiece, rfl⟩ := hline
    apply tableLine_no_bar
    unfold containsSub
    rw [toList_mk, show ("|".toList) = ('|' :: []) from rfl]
    apply containsList_head_notMem
    intro hmem
    exact hbar (splitChars_subset _ text.toList piece hpiece '|' hmem)
  unfold extractMedicineDetails
  rw [hm1, hm2]
  simp only [List.map_nil, List.isEmpty_nil, if_true]
  exact List.filterMap_eq_nil_iff.mpr htab

/-- Witness for C8 on a concrete marker-free input. -/
theorem c8_parser_never_fails_witness :
    ('*' ∉ "no medicines here".toList) ∧ ('|' ∉ "no medicines here".toList) ∧
    extractMedicineDetails "no medicines here" = [] :=
  ⟨by decide, by decide,
    c8_parser_never_fails.2 "no medicines here" (by decide) (by decide)⟩
